import Mathlib

/-!
# repair_custom: the `repair_custom.action_print_dual` client action

Verification development for `repair_custom/static/src/js/repair_print.js`.

The file holds one async function, `printDualReports(env, action)`.  It reads
`action.params.reports` and `action.params.active_ids`, loops over the reports
with `for ... of`, awaits `env.services.action.doAction({...})` once per
iteration and finally returns `{ type: "ir.actions.act_window_close" }`.

Embedding.
* JavaScript values are the inductive type `JSValue`; an object literal is the
  list of its `(key, value)` pairs in source order.
* The action service is a deterministic state transformer on an arbitrary host
  state `σ`: given a descriptor and the host state it yields how the promise
  returned by `doAction` ends (`Settlement`) and the next host state.
* An `await` is sequentialised: the awaited promise either fulfils (the loop
  goes on), rejects (the async function rejects with the same reason) or never
  settles (the async function stays suspended for ever).
* Every call of `doAction` and every settlement observed by an `await` is
  recorded in a trace of `Event`s.
-/

namespace RepairPrint

/-- JavaScript values occurring in the action descriptors. -/
inductive JSValue where
  | null : JSValue
  | bool (b : Bool) : JSValue
  | num (n : Int) : JSValue
  | str (s : String) : JSValue
  | arr (items : List JSValue) : JSValue
  | obj (fields : List (String × JSValue)) : JSValue

/-- Property read `v[key]` on an object value; `none` stands for `undefined`. -/
def JSValue.prop (key : String) : JSValue → Option JSValue
  | .obj fields => fields.lookup key
  | _ => none

/-- The own property names of an object value, in insertion order. -/
def JSValue.keys : JSValue → List String
  | .obj fields => fields.map Prod.fst
  | _ => []

/-- How the promise returned by an asynchronous call ends. -/
inductive Settlement where
  | fulfilled (value : JSValue) : Settlement
  | rejected (reason : JSValue) : Settlement
  | pending : Settlement

/-- A fulfilled promise. -/
def Settlement.isFulfilled : Settlement → Bool
  | .fulfilled _ => true
  | _ => false

/-- A promise that has settled, one way or the other. -/
def Settlement.isSettled : Settlement → Bool
  | .fulfilled _ => true
  | .rejected _ => true
  | .pending => false

/-- Observable events of the action service: `begin k d` is the `k`-th call of
`doAction`, with descriptor `d`; `settle k o` is the moment the promise of the
`k`-th call settles with outcome `o`. -/
inductive Event where
  | begin (k : Nat) (descriptor : JSValue) : Event
  | settle (k : Nat) (outcome : Settlement) : Event

/-- The environment `env`: only `env.services.action.doAction` is used. -/
structure Env (σ : Type) where
  doAction : JSValue → σ → Settlement × σ

/-- The value of `action.params`. -/
structure ActionParams where
  reports : List String
  active_ids : JSValue

/-- The client action `action` handed to the handler. -/
structure Action where
  params : ActionParams

/-- Outcome of running the `for ... of` loop: `abrupt = none` when the loop ran
to its end, otherwise the settlement that stopped it. -/
structure LoopRun (σ : Type) where
  abrupt : Option Settlement
  trace : List Event
  host : σ

/-- Outcome of one call of the async function: the state of the promise it
returned, the events it caused and the final host state. -/
structure Run (σ : Type) where
  result : Settlement
  trace : List Event
  host : σ

/-- The object literal passed to `doAction` (lines 12-20). -/
def reportAction (reportXmlId : String) (activeIds : JSValue) : JSValue :=
  .obj [("type", .str "ir.actions.report"),
        ("report_name", .str reportXmlId),
        ("report_type", .str "qweb-pdf"),
        ("context", .obj [("active_ids", activeIds),
                          ("active_model", .str "repair.order")])]

/-- The object literal returned after the loop (line 24). -/
def closeAction : JSValue :=
  .obj [("type", .str "ir.actions.act_window_close")]

/-- The loop `for (const reportXmlId of reports) { await doAction({...}); }`
(lines 11-21); `k` is the number of calls already made. -/
def forOf {σ : Type} (env : Env σ) (activeIds : JSValue) :
    List String → Nat → σ → LoopRun σ
  | [], _, s => ⟨none, [], s⟩
  | reportXmlId :: rest, k, s =>
    let d := reportAction reportXmlId activeIds
    match env.doAction d s with
    | (.fulfilled v, s1) =>
      let r := forOf env activeIds rest (k + 1) s1
      ⟨r.abrupt, .begin k d :: .settle k (.fulfilled v) :: r.trace, r.host⟩
    | (.rejected e, s1) =>
      ⟨some (.rejected e), [.begin k d, .settle k (.rejected e)], s1⟩
    | (.pending, s1) =>
      ⟨some .pending, [.begin k d], s1⟩

/-- The async function `printDualReports(env, action)` (lines 6-25). -/
def printDualReports {σ : Type} (env : Env σ) (action : Action) (s : σ) : Run σ :=
  let reports := action.params.reports
  let activeIds := action.params.active_ids
  let r := forOf env activeIds reports 0 s
  match r.abrupt with
  | some stop => ⟨stop, r.trace, r.host⟩
  | none => ⟨.fulfilled closeAction, r.trace, r.host⟩

/-! ## Observations on traces and hosts -/

/-- The descriptors handed to `doAction`, in call order. -/
def dispatched : List Event → List JSValue
  | [] => []
  | .begin _ d :: rest => d :: dispatched rest
  | .settle _ _ :: rest => dispatched rest

/-- The `report_name` of a descriptor, when it is a string. -/
def reportName (d : JSValue) : Option String :=
  match d.prop "report_name" with
  | some (.str s) => some s
  | _ => none

/-- The `context.active_ids` of a descriptor. -/
def contextActiveIds (d : JSValue) : Option JSValue :=
  (d.prop "context").bind (JSValue.prop "active_ids")

/-- The `context.active_model` of a descriptor. -/
def contextActiveModel (d : JSValue) : Option JSValue :=
  (d.prop "context").bind (JSValue.prop "active_model")

/-- The settlements the host gives when it receives the descriptors `ds` one
after the other, starting in state `s`. -/
def Env.settlements {σ : Type} (env : Env σ) : List JSValue → σ → List Settlement
  | [], _ => []
  | d :: ds, s => (env.doAction d s).1 :: env.settlements ds (env.doAction d s).2

/-- The state of the host after it received the descriptors `ds` one after the
other, starting in state `s`: each call of `doAction` moves the host on. -/
def Env.hostAfter {σ : Type} (env : Env σ) : List JSValue → σ → σ
  | [], s => s
  | d :: ds, s => env.hostAfter ds (env.doAction d s).2

/-- The outcomes of the settlements recorded in a trace, in order. -/
def settled : List Event → List Settlement
  | [] => []
  | .begin _ _ :: rest => settled rest
  | .settle _ o :: rest => o :: settled rest

/-- The descriptors the handler is to issue for `action`, in order. -/
def descriptorsOf (action : Action) : List JSValue :=
  action.params.reports.map (fun r => reportAction r action.params.active_ids)

/-- Every dispatch of the run of `action` from host state `s` succeeds. -/
def AllDispatchesSucceed {σ : Type} (env : Env σ) (action : Action) (s : σ) : Prop :=
  ∀ o ∈ env.settlements (descriptorsOf action) s, o.isFulfilled = true

/-- The dispatch number `k` is the first one that fails, with reason `e`. -/
def FirstFailureAt {σ : Type} (env : Env σ) (action : Action) (s : σ)
    (k : Nat) (e : JSValue) : Prop :=
  (env.settlements (descriptorsOf action) s)[k]? = some (.rejected e) ∧
  ∀ i, i < k → ∃ v, (env.settlements (descriptorsOf action) s)[i]? = some (.fulfilled v)

/-- The trace is `begin n, settle n, begin (n+1), settle (n+1), ...`, possibly
ending with a `begin` whose promise has not settled.  A `settle` event must
carry a settled outcome (fulfilled or rejected, never pending), and only a
fulfilled one may be followed by further events. -/
def sequentialFrom : Nat → List Event → Bool
  | _, [] => true
  | n, [.begin j _] => j == n
  | n, .begin j _ :: .settle i o :: rest =>
    j == n && i == n && o.isSettled && (rest.isEmpty || o.isFulfilled) &&
      sequentialFrom (n + 1) rest
  | _, _ => false

/-! ## Sample hosts -/

/-- A host whose every dispatch fulfils with `v`; its state counts the calls. -/
def alwaysOk (v : JSValue) : Env Nat :=
  ⟨fun _ n => (.fulfilled v, n + 1)⟩

/-- A host that rejects every dispatch with reason `e`. -/
def alwaysFail (e : JSValue) : Env Nat :=
  ⟨fun _ n => (.rejected e, n + 1)⟩

/-- A host that rejects call number `j` (counted from 0) with reason `e` and
fulfils every other call with `null`. -/
def failAt (j : Nat) (e : JSValue) : Env Nat :=
  ⟨fun _ n => (if n = j then .rejected e else .fulfilled .null, n + 1)⟩

/-- A host whose promises never settle; its state counts the calls. -/
def neverSettles : Env Nat :=
  ⟨fun _ n => (.pending, n + 1)⟩

/-- The sample action of the specification: three reports, two records. -/
def sampleABC : Action :=
  ⟨⟨["A", "B", "C"], .arr [.num 10, .num 20]⟩⟩

/-- An action with a single report. -/
def sampleA : Action :=
  ⟨⟨["A"], .arr [.num 10, .num 20]⟩⟩

/-- An action naming the same report twice. -/
def sampleAA : Action :=
  ⟨⟨["A", "A"], .arr [.num 10, .num 20]⟩⟩

/-- An action with two reports and an empty list of record identifiers. -/
def sampleNoIds : Action :=
  ⟨⟨["A", "B"], .arr []⟩⟩

/-! ## Unfolding the loop -/

theorem forOf_nil {σ : Type} (env : Env σ) (ids : JSValue) (k : Nat) (s : σ) :
    forOf env ids [] k s = ⟨none, [], s⟩ := rfl

theorem forOf_cons_fulfilled {σ : Type} (env : Env σ) (ids : JSValue) (x : String)
    (rest : List String) (k : Nat) (s s1 : σ) (v : JSValue)
    (h : env.doAction (reportAction x ids) s = (.fulfilled v, s1)) :
    forOf env ids (x :: rest) k s =
      ⟨(forOf env ids rest (k + 1) s1).abrupt,
       .begin k (reportAction x ids) :: .settle k (.fulfilled v) ::
         (forOf env ids rest (k + 1) s1).trace,
       (forOf env ids rest (k + 1) s1).host⟩ := by
  simp only [forOf, h]

theorem forOf_cons_rejected {σ : Type} (env : Env σ) (ids : JSValue) (x : String)
    (rest : List String) (k : Nat) (s s1 : σ) (e : JSValue)
    (h : env.doAction (reportAction x ids) s = (.rejected e, s1)) :
    forOf env ids (x :: rest) k s =
      ⟨some (.rejected e),
       [.begin k (reportAction x ids), .settle k (.rejected e)], s1⟩ := by
  simp only [forOf, h]

theorem forOf_cons_pending {σ : Type} (env : Env σ) (ids : JSValue) (x : String)
    (rest : List String) (k : Nat) (s s1 : σ)
    (h : env.doAction (reportAction x ids) s = (.pending, s1)) :
    forOf env ids (x :: rest) k s =
      ⟨some .pending, [.begin k (reportAction x ids)], s1⟩ := by
  simp only [forOf, h]

/-- When the host fulfils every descriptor of the list, the loop runs to its
end and dispatches exactly the descriptors of the list, in order. -/
theorem forOf_of_all_fulfilled {σ : Type} (env : Env σ) (ids : JSValue) :
    ∀ (reports : List String) (k : Nat) (s : σ),
      (∀ o ∈ env.settlements (reports.map (fun r => reportAction r ids)) s,
        o.isFulfilled = true) →
      (forOf env ids reports k s).abrupt = none ∧
      dispatched (forOf env ids reports k s).trace =
        reports.map (fun r => reportAction r ids) := by
  intro reports
  induction reports with
  | nil => intro k s _; exact ⟨rfl, rfl⟩
  | cons x rest ih =>
    intro k s h
    cases hd : env.doAction (reportAction x ids) s with
    | mk o s1 =>
      have h0 : o.isFulfilled = true := by
        apply h
        simp [Env.settlements, hd]
      have hrest : ∀ o ∈ env.settlements (rest.map (fun r => reportAction r ids)) s1,
          o.isFulfilled = true := by
        intro o1 ho1
        apply h
        simp [Env.settlements, hd, ho1]
      cases o with
      | fulfilled v =>
        rw [forOf_cons_fulfilled env ids x rest k s s1 v hd]
        obtain ⟨ha, ht⟩ := ih (k + 1) s1 hrest
        exact ⟨ha, by simp [dispatched, ht]⟩
      | rejected e => simp [Settlement.isFulfilled] at h0
      | pending => simp [Settlement.isFulfilled] at h0

/-- When dispatch number `j` of the list is the first to be rejected, the loop
stops there: it dispatched the first `j + 1` descriptors and the last event is
the rejection. -/
theorem forOf_of_first_failure {σ : Type} (env : Env σ) (ids : JSValue) (e : JSValue) :
    ∀ (reports : List String) (j k : Nat) (s : σ),
      (env.settlements (reports.map (fun r => reportAction r ids)) s)[j]?
        = some (.rejected e) →
      (∀ i, i < j → ∃ v,
        (env.settlements (reports.map (fun r => reportAction r ids)) s)[i]?
          = some (.fulfilled v)) →
      (forOf env ids reports k s).abrupt = some (.rejected e) ∧
      dispatched (forOf env ids reports k s).trace =
        (reports.take (j + 1)).map (fun r => reportAction r ids) ∧
      (forOf env ids reports k s).trace.getLast? = some (.settle (k + j) (.rejected e)) := by
  intro reports
  induction reports with
  | nil => intro j k s h _; simp [Env.settlements] at h
  | cons x rest ih =>
    intro j k s hj hlt
    cases hd : env.doAction (reportAction x ids) s with
    | mk o s1 =>
      cases j with
      | zero =>
        have ho : o = .rejected e := by
          simpa [Env.settlements, hd] using hj
        subst ho
        rw [forOf_cons_rejected env ids x rest k s s1 e hd]
        exact ⟨rfl, by simp [dispatched], by simp⟩
      | succ j =>
        obtain ⟨v, hv⟩ := hlt 0 (Nat.succ_pos j)
        have ho : o = .fulfilled v := by
          simpa [Env.settlements, hd] using hv
        subst ho
        rw [forOf_cons_fulfilled env ids x rest k s s1 v hd]
        have hj1 : (env.settlements (rest.map (fun r => reportAction r ids)) s1)[j]?
            = some (.rejected e) := by
          simpa [Env.settlements, hd] using hj
        have hlt1 : ∀ i, i < j → ∃ v,
            (env.settlements (rest.map (fun r => reportAction r ids)) s1)[i]?
              = some (.fulfilled v) := by
          intro i hi
          obtain ⟨w, hw⟩ := hlt (i + 1) (Nat.succ_lt_succ hi)
          exact ⟨w, by simpa [Env.settlements, hd] using hw⟩
        obtain ⟨ha, ht, hl⟩ := ih j (k + 1) s1 hj1 hlt1
        refine ⟨ha, by simp [dispatched, ht], ?_⟩
        have hne : (forOf env ids rest (k + 1) s1).trace ≠ [] := by
          intro hnil
          rw [hnil] at hl
          simp at hl
        show (_ :: _ :: (forOf env ids rest (k + 1) s1).trace).getLast? = _
        rw [List.getLast?_cons_cons]
        cases htr : (forOf env ids rest (k + 1) s1).trace with
        | nil => exact absurd htr hne
        | cons a t =>
          rw [List.getLast?_cons_cons, ← htr, hl]
          congr 2
          omega

/-- Whatever the host does, the descriptors dispatched by the loop are an
initial segment of the descriptors of the list. -/
theorem forOf_dispatched_initial {σ : Type} (env : Env σ) (ids : JSValue) :
    ∀ (reports : List String) (k : Nat) (s : σ),
      dispatched (forOf env ids reports k s).trace <+:
        reports.map (fun r => reportAction r ids) := by
  intro reports
  induction reports with
  | nil => intro k s; simp [forOf_nil, dispatched]
  | cons x rest ih =>
    intro k s
    cases hd : env.doAction (reportAction x ids) s with
    | mk o s1 =>
      cases o with
      | fulfilled v =>
        rw [forOf_cons_fulfilled env ids x rest k s s1 v hd]
        simpa [dispatched, List.cons_prefix_cons] using ih (k + 1) s1
      | rejected e =>
        rw [forOf_cons_rejected env ids x rest k s s1 e hd]
        simp [dispatched, List.cons_prefix_cons]
      | pending =>
        rw [forOf_cons_pending env ids x rest k s s1 hd]
        simp [dispatched, List.cons_prefix_cons]

/-- The events of the loop alternate `begin k`, `settle k`, `begin (k+1)`, ... -/
theorem forOf_sequential {σ : Type} (env : Env σ) (ids : JSValue) :
    ∀ (reports : List String) (k : Nat) (s : σ),
      sequentialFrom k (forOf env ids reports k s).trace = true := by
  intro reports
  induction reports with
  | nil => intro k s; simp [forOf_nil, sequentialFrom]
  | cons x rest ih =>
    intro k s
    cases hd : env.doAction (reportAction x ids) s with
    | mk o s1 =>
      cases o with
      | fulfilled v =>
        rw [forOf_cons_fulfilled env ids x rest k s s1 v hd]
        simpa [sequentialFrom, Settlement.isSettled, Settlement.isFulfilled]
          using ih (k + 1) s1
      | rejected e =>
        rw [forOf_cons_rejected env ids x rest k s s1 e hd]
        simp [sequentialFrom, Settlement.isSettled]
      | pending =>
        rw [forOf_cons_pending env ids x rest k s s1 hd]
        simp [sequentialFrom]

/-- Call number `m` of the loop carries the descriptor built from the report at
position `m - k` of the list. -/
theorem forOf_begin_mem {σ : Type} (env : Env σ) (ids : JSValue) :
    ∀ (reports : List String) (k : Nat) (s : σ) (m : Nat) (d : JSValue),
      Event.begin m d ∈ (forOf env ids reports k s).trace →
      k ≤ m ∧ ∃ r, reports[m - k]? = some r ∧ d = reportAction r ids := by
  intro reports
  induction reports with
  | nil => intro k s m d h; simp [forOf_nil] at h
  | cons x rest ih =>
    intro k s m d h
    cases hd : env.doAction (reportAction x ids) s with
    | mk o s1 =>
      cases o with
      | fulfilled v =>
        rw [forOf_cons_fulfilled env ids x rest k s s1 v hd] at h
        simp only [List.mem_cons, Event.begin.injEq, false_or, reduceCtorEq] at h
        rcases h with ⟨hm, hdd⟩ | h
        · subst hm; exact ⟨le_refl _, x, by simp, hdd⟩
        · obtain ⟨hle, r, hr, hdr⟩ := ih (k + 1) s1 m d h
          refine ⟨by omega, r, ?_, hdr⟩
          have : m - k = (m - (k + 1)) + 1 := by omega
          rw [this]
          simpa using hr
      | rejected e =>
        rw [forOf_cons_rejected env ids x rest k s s1 e hd] at h
        simp only [List.mem_cons, Event.begin.injEq, List.not_mem_nil, or_false,
          reduceCtorEq] at h
        obtain ⟨hm, hdd⟩ := h
        subst hm; exact ⟨le_refl _, x, by simp, hdd⟩
      | pending =>
        rw [forOf_cons_pending env ids x rest k s s1 hd] at h
        simp only [List.mem_singleton, Event.begin.injEq] at h
        obtain ⟨hm, hdd⟩ := h
        subst hm; exact ⟨le_refl _, x, by simp, hdd⟩

/-- When dispatch number `j` of the list is the first to be rejected, no call
with a number above `k + j` is made. -/
theorem forOf_begin_le_of_first_failure {σ : Type} (env : Env σ) (ids : JSValue)
    (e : JSValue) :
    ∀ (reports : List String) (j k : Nat) (s : σ),
      (env.settlements (reports.map (fun r => reportAction r ids)) s)[j]?
        = some (.rejected e) →
      (∀ i, i < j → ∃ v,
        (env.settlements (reports.map (fun r => reportAction r ids)) s)[i]?
          = some (.fulfilled v)) →
      ∀ m d, Event.begin m d ∈ (forOf env ids reports k s).trace → m ≤ k + j := by
  intro reports
  induction reports with
  | nil => intro j k s h _; simp [Env.settlements] at h
  | cons x rest ih =>
    intro j k s hj hlt m d hm
    cases hd : env.doAction (reportAction x ids) s with
    | mk o s1 =>
      cases j with
      | zero =>
        have ho : o = .rejected e := by
          simpa [Env.settlements, hd] using hj
        subst ho
        rw [forOf_cons_rejected env ids x rest k s s1 e hd] at hm
        simp only [List.mem_cons, Event.begin.injEq, List.not_mem_nil, or_false,
          reduceCtorEq] at hm
        omega
      | succ j =>
        obtain ⟨v, hv⟩ := hlt 0 (Nat.succ_pos j)
        have ho : o = .fulfilled v := by
          simpa [Env.settlements, hd] using hv
        subst ho
        rw [forOf_cons_fulfilled env ids x rest k s s1 v hd] at hm
        simp only [List.mem_cons, Event.begin.injEq, false_or, reduceCtorEq] at hm
        have hj1 : (env.settlements (rest.map (fun r => reportAction r ids)) s1)[j]?
            = some (.rejected e) := by
          simpa [Env.settlements, hd] using hj
        have hlt1 : ∀ i, i < j → ∃ v,
            (env.settlements (rest.map (fun r => reportAction r ids)) s1)[i]?
              = some (.fulfilled v) := by
          intro i hi
          obtain ⟨w, hw⟩ := hlt (i + 1) (Nat.succ_lt_succ hi)
          exact ⟨w, by simpa [Env.settlements, hd] using hw⟩
        rcases hm with ⟨hmk, _⟩ | hm
        · omega
        · have := ih j (k + 1) s1 hj1 hlt1 m d hm
          omega

/-- A loop that ran to its end saw every dispatch of the list fulfilled. -/
theorem forOf_all_fulfilled_of_normal {σ : Type} (env : Env σ) (ids : JSValue) :
    ∀ (reports : List String) (k : Nat) (s : σ),
      (forOf env ids reports k s).abrupt = none →
      ∀ o ∈ env.settlements (reports.map (fun r => reportAction r ids)) s,
        o.isFulfilled = true := by
  intro reports
  induction reports with
  | nil => intro k s _ o ho; simp [Env.settlements] at ho
  | cons x rest ih =>
    intro k s h o ho
    cases hd : env.doAction (reportAction x ids) s with
    | mk o1 s1 =>
      cases o1 with
      | fulfilled v =>
        rw [forOf_cons_fulfilled env ids x rest k s s1 v hd] at h
        simp only [List.map_cons, Env.settlements, hd, List.mem_cons] at ho
        rcases ho with ho | ho
        · subst ho; rfl
        · exact ih (k + 1) s1 h o ho
      | rejected e =>
        rw [forOf_cons_rejected env ids x rest k s s1 e hd] at h
        simp at h
      | pending =>
        rw [forOf_cons_pending env ids x rest k s s1 hd] at h
        simp at h

/-- A loop stopped by a rejection recorded that rejection as the settlement of
one of its own dispatches. -/
theorem forOf_rejected_mem {σ : Type} (env : Env σ) (ids : JSValue) (e : JSValue) :
    ∀ (reports : List String) (k : Nat) (s : σ),
      (forOf env ids reports k s).abrupt = some (.rejected e) →
      ∃ m, Event.settle m (.rejected e) ∈ (forOf env ids reports k s).trace := by
  intro reports
  induction reports with
  | nil => intro k s h; simp [forOf_nil] at h
  | cons x rest ih =>
    intro k s h
    cases hd : env.doAction (reportAction x ids) s with
    | mk o1 s1 =>
      cases o1 with
      | fulfilled v =>
        rw [forOf_cons_fulfilled env ids x rest k s s1 v hd] at h ⊢
        obtain ⟨m, hm⟩ := ih (k + 1) s1 h
        exact ⟨m, List.mem_cons_of_mem _ (List.mem_cons_of_mem _ hm)⟩
      | rejected e1 =>
        rw [forOf_cons_rejected env ids x rest k s s1 e1 hd] at h ⊢
        simp only [Option.some.injEq, Settlement.rejected.injEq] at h
        subst h
        exact ⟨k, by simp⟩
      | pending =>
        rw [forOf_cons_pending env ids x rest k s s1 hd] at h
        simp at h

/-- The host answers each descriptor it is fed. -/
theorem settlements_length {σ : Type} (env : Env σ) :
    ∀ (ds : List JSValue) (s : σ), (env.settlements ds s).length = ds.length := by
  intro ds
  induction ds with
  | nil => intro s; rfl
  | cons d ds ih => intro s; simp [Env.settlements, ih]

/-! ## The loop and the host -/

/-- The host state left by the loop is the state of the host after it received
exactly the dispatched descriptors: every recorded call is a real call of
`doAction` and no other call is made. -/
theorem forOf_host {σ : Type} (env : Env σ) (ids : JSValue) :
    ∀ (reports : List String) (k : Nat) (s : σ),
      (forOf env ids reports k s).host
        = env.hostAfter (dispatched (forOf env ids reports k s).trace) s := by
  intro reports
  induction reports with
  | nil => intro k s; rfl
  | cons x rest ih =>
    intro k s
    cases hd : env.doAction (reportAction x ids) s with
    | mk o s1 =>
      cases o with
      | fulfilled v =>
        rw [forOf_cons_fulfilled env ids x rest k s s1 v hd]
        simp only [dispatched, Env.hostAfter, hd]
        exact ih (k + 1) s1
      | rejected e =>
        rw [forOf_cons_rejected env ids x rest k s s1 e hd]
        simp only [dispatched, Env.hostAfter, hd]
      | pending =>
        rw [forOf_cons_pending env ids x rest k s s1 hd]
        simp only [dispatched, Env.hostAfter, hd]

/-- Every settlement recorded by the loop is a settled outcome and is the one
the host gave to that very call. -/
theorem forOf_settle_mem {σ : Type} (env : Env σ) (ids : JSValue) :
    ∀ (reports : List String) (k : Nat) (s : σ) (m : Nat) (o : Settlement),
      Event.settle m o ∈ (forOf env ids reports k s).trace →
      k ≤ m ∧ o.isSettled = true ∧
      (env.settlements (reports.map (fun r => reportAction r ids)) s)[m - k]? = some o := by
  intro reports
  induction reports with
  | nil => intro k s m o h; simp [forOf_nil] at h
  | cons x rest ih =>
    intro k s m o h
    cases hd : env.doAction (reportAction x ids) s with
    | mk o1 s1 =>
      cases o1 with
      | fulfilled v =>
        rw [forOf_cons_fulfilled env ids x rest k s s1 v hd] at h
        simp only [List.mem_cons, Event.settle.injEq, false_or, reduceCtorEq] at h
        rcases h with ⟨hm, ho⟩ | h
        · subst hm; subst ho
          exact ⟨le_refl _, rfl, by simp [Env.settlements, hd]⟩
        · obtain ⟨hle, hs, hr⟩ := ih (k + 1) s1 m o h
          refine ⟨by omega, hs, ?_⟩
          have : m - k = (m - (k + 1)) + 1 := by omega
          rw [this]
          simpa [Env.settlements, hd] using hr
      | rejected e =>
        rw [forOf_cons_rejected env ids x rest k s s1 e hd] at h
        simp only [List.mem_cons, Event.settle.injEq, List.not_mem_nil, or_false, false_or,
          reduceCtorEq] at h
        obtain ⟨hm, ho⟩ := h
        subst hm; subst ho
        exact ⟨le_refl _, rfl, by simp [Env.settlements, hd]⟩
      | pending =>
        rw [forOf_cons_pending env ids x rest k s s1 hd] at h
        simp at h

/-- A call numbered above the first call of the loop is made only after the
previous call was fulfilled by the host. -/
theorem forOf_settled_before {σ : Type} (env : Env σ) (ids : JSValue) :
    ∀ (reports : List String) (k : Nat) (s : σ) (i m : Nat) (d : JSValue),
      (forOf env ids reports k s).trace[i]? = some (.begin m d) → k < m →
      ∃ (j : Nat) (v : JSValue), j < i ∧
        (forOf env ids reports k s).trace[j]? = some (.settle (m - 1) (.fulfilled v)) ∧
        (env.settlements (reports.map (fun r => reportAction r ids)) s)[m - 1 - k]?
          = some (.fulfilled v) := by
  intro reports
  induction reports with
  | nil => intro k s i m d h; simp [forOf_nil] at h
  | cons x rest ih =>
    intro k s i m d h hkm
    cases hd : env.doAction (reportAction x ids) s with
    | mk o1 s1 =>
      cases o1 with
      | fulfilled v =>
        rw [forOf_cons_fulfilled env ids x rest k s s1 v hd] at h ⊢
        match i, h with
        | 0, h =>
          simp only [List.getElem?_cons_zero, Option.some.injEq, Event.begin.injEq] at h
          omega
        | 1, h => simp at h
        | i + 2, h =>
          simp only [List.getElem?_cons_succ] at h
          have hle := (forOf_begin_mem env ids rest (k + 1) s1 m d
            (List.getElem?_mem h)).1
          rcases Nat.eq_or_lt_of_le hle with heq | hlt
          · subst heq
            refine ⟨1, v, by omega, by simp, ?_⟩
            simp [Env.settlements, hd]
          · obtain ⟨j, w, hj, hjt, hjs⟩ := ih (k + 1) s1 i m d h hlt
            refine ⟨j + 2, w, by omega, by simpa using hjt, ?_⟩
            have : m - 1 - k = (m - 1 - (k + 1)) + 1 := by omega
            rw [this]
            simpa [Env.settlements, hd] using hjs
      | rejected e =>
        rw [forOf_cons_rejected env ids x rest k s s1 e hd] at h
        match i, h with
        | 0, h =>
          simp only [List.getElem?_cons_zero, Option.some.injEq, Event.begin.injEq] at h
          omega
        | 1, h => simp at h
        | i + 2, h => simp at h
      | pending =>
        rw [forOf_cons_pending env ids x rest k s s1 hd] at h
        match i, h with
        | 0, h =>
          simp only [List.getElem?_cons_zero, Option.some.injEq, Event.begin.injEq] at h
          omega
        | i + 1, h => simp at h

/-- When the host fulfils every descriptor of the list, the settlements
recorded by the loop are exactly the answers of the host, in order. -/
theorem forOf_settled_of_all_fulfilled {σ : Type} (env : Env σ) (ids : JSValue) :
    ∀ (reports : List String) (k : Nat) (s : σ),
      (∀ o ∈ env.settlements (reports.map (fun r => reportAction r ids)) s,
        o.isFulfilled = true) →
      settled (forOf env ids reports k s).trace
        = env.settlements (reports.map (fun r => reportAction r ids)) s := by
  intro reports
  induction reports with
  | nil => intro k s _; rfl
  | cons x rest ih =>
    intro k s h
    cases hd : env.doAction (reportAction x ids) s with
    | mk o s1 =>
      have h0 : o.isFulfilled = true := by
        apply h
        simp [Env.settlements, hd]
      have hrest : ∀ o ∈ env.settlements (rest.map (fun r => reportAction r ids)) s1,
          o.isFulfilled = true := by
        intro o1 ho1
        apply h
        simp [Env.settlements, hd, ho1]
      cases o with
      | fulfilled v =>
        rw [forOf_cons_fulfilled env ids x rest k s s1 v hd]
        simp [settled, Env.settlements, hd, ih (k + 1) s1 hrest]
      | rejected e => simp [Settlement.isFulfilled] at h0
      | pending => simp [Settlement.isFulfilled] at h0

/-! ## From the loop to the async function -/

theorem printDualReports_trace {σ : Type} (env : Env σ) (action : Action) (s : σ) :
    (printDualReports env action s).trace =
      (forOf env action.params.active_ids action.params.reports 0 s).trace := by
  unfold printDualReports
  dsimp only
  split <;> rfl

theorem printDualReports_host {σ : Type} (env : Env σ) (action : Action) (s : σ) :
    (printDualReports env action s).host =
      (forOf env action.params.active_ids action.params.reports 0 s).host := by
  unfold printDualReports
  dsimp only
  split <;> rfl

theorem printDualReports_result_of_normal {σ : Type} (env : Env σ) (action : Action) (s : σ)
    (h : (forOf env action.params.active_ids action.params.reports 0 s).abrupt = none) :
    (printDualReports env action s).result = .fulfilled closeAction := by
  unfold printDualReports
  simp only [h]

theorem printDualReports_result_of_abrupt {σ : Type} (env : Env σ) (action : Action) (s : σ)
    (stop : Settlement)
    (h : (forOf env action.params.active_ids action.params.reports 0 s).abrupt = some stop) :
    (printDualReports env action s).result = stop := by
  unfold printDualReports
  simp only [h]

/-- The abrupt end of the loop is never a fulfilment. -/
theorem forOf_abrupt_not_fulfilled {σ : Type} (env : Env σ) (ids : JSValue) :
    ∀ (reports : List String) (k : Nat) (s : σ) (v : JSValue),
      (forOf env ids reports k s).abrupt ≠ some (.fulfilled v) := by
  intro reports
  induction reports with
  | nil => intro k s v; simp [forOf_nil]
  | cons x rest ih =>
    intro k s v
    cases hd : env.doAction (reportAction x ids) s with
    | mk o1 s1 =>
      cases o1 with
      | fulfilled w =>
        rw [forOf_cons_fulfilled env ids x rest k s s1 w hd]
        exact ih (k + 1) s1 v
      | rejected e =>
        rw [forOf_cons_rejected env ids x rest k s s1 e hd]
        simp
      | pending =>
        rw [forOf_cons_pending env ids x rest k s s1 hd]
        simp

/-- The sample host `alwaysOk` fulfils every dispatch of every action. -/
theorem alwaysOk_succeeds (v : JSValue) (action : Action) (s : Nat) :
    AllDispatchesSucceed (alwaysOk v) action s := by
  unfold AllDispatchesSucceed
  generalize descriptorsOf action = ds
  induction ds generalizing s with
  | nil => intro o ho; simp [Env.settlements] at ho
  | cons d ds ih =>
    intro o ho
    simp only [Env.settlements, List.mem_cons] at ho
    rcases ho with ho | ho
    · subst ho; rfl
    · exact ih _ o ho

/-- Reading the fields of the dispatched descriptor. -/
theorem reportName_reportAction (r : String) (ids : JSValue) :
    reportName (reportAction r ids) = some r := rfl

theorem contextActiveIds_reportAction (r : String) (ids : JSValue) :
    contextActiveIds (reportAction r ids) = some ids := rfl

theorem contextActiveModel_reportAction (r : String) (ids : JSValue) :
    contextActiveModel (reportAction r ids) = some (.str "repair.order") := rfl

/-- `reportName` undoes `reportAction` on a whole list. -/
theorem map_reportName_descriptors (ids : JSValue) (l : List String) :
    (l.map (fun r => reportAction r ids)).map reportName = l.map some := by
  induction l with
  | nil => rfl
  | cons x rest ih => simp [reportName_reportAction]

/-- The first event of a non-empty loop is the call for its first report. -/
theorem forOf_head {σ : Type} (env : Env σ) (ids : JSValue) (x : String)
    (rest : List String) (k : Nat) (s : σ) :
    (forOf env ids (x :: rest) k s).trace.head? = some (.begin k (reportAction x ids)) := by
  cases hd : env.doAction (reportAction x ids) s with
  | mk o s1 =>
    cases o with
    | fulfilled v => rw [forOf_cons_fulfilled env ids x rest k s s1 v hd]; rfl
    | rejected e => rw [forOf_cons_rejected env ids x rest k s s1 e hd]; rfl
    | pending => rw [forOf_cons_pending env ids x rest k s s1 hd]; rfl

/-- Every dispatched descriptor is the descriptor of one of the reports. -/
theorem dispatched_mem {σ : Type} (env : Env σ) (action : Action) (s : σ) (d : JSValue)
    (h : d ∈ dispatched (printDualReports env action s).trace) :
    ∃ r ∈ action.params.reports, d = reportAction r action.params.active_ids := by
  rw [printDualReports_trace] at h
  have hp := forOf_dispatched_initial env action.params.active_ids action.params.reports 0 s
  have hm := hp.subset h
  simp only [List.mem_map] at hm
  obtain ⟨r, hr, hrd⟩ := hm
  exact ⟨r, hr, hrd.symm⟩

/-- The sample host `failAt 1` fails first on the second report of `sampleABC`. -/
theorem failAt_one_first_failure :
    FirstFailureAt (failAt 1 (.str "boom")) sampleABC 0 1 (.str "boom") := by
  refine ⟨rfl, ?_⟩
  intro i hi
  interval_cases i
  exact ⟨_, rfl⟩

/-- Counting `some x` among the wrapped names is counting `x` among the names. -/
theorem count_some_map (l : List String) (x : String) :
    (l.map some).count (some x) = l.count x := by
  induction l with
  | nil => rfl
  | cons a t ih => simp [List.count_cons, ih]

/-! ## The claims -/

/-- C1: when every dispatch succeeds, `printDualReports` calls the dispatch
capability exactly `length reports` times, the `i`-th call carries
`report_name = reports[i]` (the dispatched names are `reports`, in order), and
every call carries `context.active_ids = activeIds` and
`context.active_model = "repair.order"`.  The calls are real calls of the
host: the recorded settlements are the answers the host gave to these
descriptors, and the host ends in the state it reaches after receiving exactly
these descriptors, one after the other. -/
theorem printDualReports_dispatches_each_report_in_order {σ : Type} (env : Env σ)
    (action : Action) (s : σ) (h : AllDispatchesSucceed env action s) :
    (dispatched (printDualReports env action s).trace).length
      = action.params.reports.length ∧
    (dispatched (printDualReports env action s).trace).map reportName
      = action.params.reports.map some ∧
    (∀ (i : Nat) (r : String), action.params.reports[i]? = some r →
      ((dispatched (printDualReports env action s).trace)[i]?).bind reportName = some r) ∧
    (∀ d ∈ dispatched (printDualReports env action s).trace,
      contextActiveIds d = some action.params.active_ids ∧
      contextActiveModel d = some (.str "repair.order")) ∧
    dispatched (printDualReports env action s).trace = descriptorsOf action ∧
    settled (printDualReports env action s).trace
      = env.settlements (descriptorsOf action) s ∧
    (settled (printDualReports env action s).trace).length
      = action.params.reports.length ∧
    (printDualReports env action s).host = env.hostAfter (descriptorsOf action) s := by
  have hd := (forOf_of_all_fulfilled env action.params.active_ids
    action.params.reports 0 s h).2
  have hs := forOf_settled_of_all_fulfilled env action.params.active_ids
    action.params.reports 0 s h
  have hh := forOf_host env action.params.active_ids action.params.reports 0 s
  rw [printDualReports_host, hh, printDualReports_trace, hd, hs]
  refine ⟨by simp, map_reportName_descriptors _ _, ?_, ?_, rfl, rfl, ?_, rfl⟩
  · intro i r hr
    simp [List.getElem?_map, hr, reportName_reportAction]
  · intro d hmem
    simp only [List.mem_map] at hmem
    obtain ⟨r, _, hrd⟩ := hmem
    subst hrd
    exact ⟨rfl, rfl⟩
  · rw [settlements_length]
    simp

/-- C1, witness: `reports = [A, B, C]` and `activeIds = [10, 20]` give exactly
three dispatches, named A, B, C in that order, each with `active_ids = [10, 20]`
and `active_model = "repair.order"`; the host, which counts the calls it
receives, has counted three. -/
theorem printDualReports_dispatches_each_report_in_order_witness :
    AllDispatchesSucceed (alwaysOk .null) sampleABC 0 ∧
    (dispatched (printDualReports (alwaysOk .null) sampleABC 0).trace).length = 3 ∧
    (dispatched (printDualReports (alwaysOk .null) sampleABC 0).trace).map reportName
      = [some "A", some "B", some "C"] ∧
    (∀ d ∈ dispatched (printDualReports (alwaysOk .null) sampleABC 0).trace,
      contextActiveIds d = some (.arr [.num 10, .num 20]) ∧
      contextActiveModel d = some (.str "repair.order")) ∧
    (settled (printDualReports (alwaysOk .null) sampleABC 0).trace).length = 3 ∧
    (printDualReports (alwaysOk .null) sampleABC 0).host = 3 :=
  ⟨alwaysOk_succeeds _ _ _,
   (printDualReports_dispatches_each_report_in_order (alwaysOk .null) sampleABC 0
      (alwaysOk_succeeds _ _ _)).1,
   (printDualReports_dispatches_each_report_in_order (alwaysOk .null) sampleABC 0
      (alwaysOk_succeeds _ _ _)).2.1,
   (printDualReports_dispatches_each_report_in_order (alwaysOk .null) sampleABC 0
      (alwaysOk_succeeds _ _ _)).2.2.2.1,
   (printDualReports_dispatches_each_report_in_order (alwaysOk .null) sampleABC 0
      (alwaysOk_succeeds _ _ _)).2.2.2.2.2.2.1,
   (printDualReports_dispatches_each_report_in_order (alwaysOk .null) sampleABC 0
      (alwaysOk_succeeds _ _ _)).2.2.2.2.2.2.2⟩

/-- C2, counterexample: with three reports that are all dispatched successfully
the returned value is not the object `{ kind: "window-close" }`. -/
theorem printDualReports_result_is_not_kind_window_close :
    AllDispatchesSucceed (alwaysOk .null) sampleABC 0 ∧
    (printDualReports (alwaysOk .null) sampleABC 0).result
      ≠ .fulfilled (.obj [("kind", .str "window-close")]) := by
  refine ⟨alwaysOk_succeeds _ _ _, ?_⟩
  show Settlement.fulfilled closeAction ≠ _
  simp [closeAction]

/-- C2, amended: when every dispatch succeeds the returned value is exactly the
object `{ type: "ir.actions.act_window_close" }`, whose only field is `type`,
and it is the same value for every other successful run, whatever its reports. -/
theorem printDualReports_returns_act_window_close {σ : Type} (env : Env σ)
    (action : Action) (s : σ) (h : AllDispatchesSucceed env action s) :
    (printDualReports env action s).result
      = .fulfilled (.obj [("type", .str "ir.actions.act_window_close")]) ∧
    (∀ v, (printDualReports env action s).result = .fulfilled v → v.keys = ["type"]) ∧
    ∀ (τ : Type) (env2 : Env τ) (action2 : Action) (s2 : τ),
      AllDispatchesSucceed env2 action2 s2 →
      (printDualReports env2 action2 s2).result = (printDualReports env action s).result := by
  have hres : ∀ (τ : Type) (env2 : Env τ) (action2 : Action) (s2 : τ),
      AllDispatchesSucceed env2 action2 s2 →
      (printDualReports env2 action2 s2).result = .fulfilled closeAction := by
    intro τ env2 action2 s2 h2
    exact printDualReports_result_of_normal env2 action2 s2
      (forOf_of_all_fulfilled env2 action2.params.active_ids action2.params.reports 0 s2 h2).1
  refine ⟨hres σ env action s h, ?_, ?_⟩
  · intro v hv
    rw [hres σ env action s h] at hv
    simp only [Settlement.fulfilled.injEq] at hv
    subst hv
    rfl
  · intro τ env2 action2 s2 h2
    rw [hres τ env2 action2 s2 h2, hres σ env action s h]

/-- C2, witness: the runs on `[A, B, C]` and on `[A]` both return
`{ type: "ir.actions.act_window_close" }`. -/
theorem printDualReports_returns_act_window_close_witness :
    AllDispatchesSucceed (alwaysOk .null) sampleABC 0 ∧
    (printDualReports (alwaysOk .null) sampleABC 0).result
      = .fulfilled (.obj [("type", .str "ir.actions.act_window_close")]) ∧
    (printDualReports (alwaysOk (.str "done")) sampleA 7).result
      = (printDualReports (alwaysOk .null) sampleABC 0).result :=
  ⟨alwaysOk_succeeds _ _ _,
   (printDualReports_returns_act_window_close (alwaysOk .null) sampleABC 0
      (alwaysOk_succeeds _ _ _)).1,
   (printDualReports_returns_act_window_close (alwaysOk .null) sampleABC 0
      (alwaysOk_succeeds _ _ _)).2.2 Nat (alwaysOk (.str "done")) sampleA 7
      (alwaysOk_succeeds _ _ _)⟩

/-- C3: when the dispatch of `reports[k]` is the first to fail, exactly
`reports[0..k]` are dispatched (no call numbered above `k` is made), the
window-close descriptor is not returned and the result is that same failure. -/
theorem printDualReports_first_failure_aborts {σ : Type} (env : Env σ)
    (action : Action) (s : σ) (k : Nat) (e : JSValue)
    (h : FirstFailureAt env action s k e) :
    k < action.params.reports.length ∧
    (dispatched (printDualReports env action s).trace).map reportName
      = (action.params.reports.take (k + 1)).map some ∧
    (dispatched (printDualReports env action s).trace).length = k + 1 ∧
    (∀ m d, Event.begin m d ∈ (printDualReports env action s).trace → m ≤ k) ∧
    (printDualReports env action s).result = .rejected e ∧
    (printDualReports env action s).result ≠ .fulfilled closeAction := by
  obtain ⟨hk, hlt⟩ := h
  have hlen : k < action.params.reports.length := by
    have h1 := (List.getElem?_eq_some.1 hk).1
    rw [settlements_length] at h1
    simpa [descriptorsOf] using h1
  obtain ⟨ha, hd, _⟩ := forOf_of_first_failure env action.params.active_ids e
    action.params.reports k 0 s hk hlt
  have hb := forOf_begin_le_of_first_failure env action.params.active_ids e
    action.params.reports k 0 s hk hlt
  have hres := printDualReports_result_of_abrupt env action s _ ha
  rw [printDualReports_trace, hd, hres]
  refine ⟨hlen, map_reportName_descriptors _ _, ?_, ?_, rfl, by simp⟩
  · simp only [List.length_map, List.length_take]
    omega
  · intro m d hm
    have := hb m d hm
    omega

/-- C3, witness: with three reports and a failure on the second, two reports
are dispatched, the third never is, and the failure is the result. -/
theorem printDualReports_first_failure_aborts_witness :
    FirstFailureAt (failAt 1 (.str "boom")) sampleABC 0 1 (.str "boom") ∧
    (dispatched (printDualReports (failAt 1 (.str "boom")) sampleABC 0).trace).map reportName
      = [some "A", some "B"] ∧
    (∀ m d, Event.begin m d ∈ (printDualReports (failAt 1 (.str "boom")) sampleABC 0).trace →
      m ≤ 1) ∧
    (printDualReports (failAt 1 (.str "boom")) sampleABC 0).result
      = .rejected (.str "boom") ∧
    (printDualReports (failAt 1 (.str "boom")) sampleABC 0).result
      ≠ .fulfilled closeAction :=
  ⟨failAt_one_first_failure,
   (printDualReports_first_failure_aborts (failAt 1 (.str "boom")) sampleABC 0 1 _
      failAt_one_first_failure).2.1,
   (printDualReports_first_failure_aborts (failAt 1 (.str "boom")) sampleABC 0 1 _
      failAt_one_first_failure).2.2.2.1,
   (printDualReports_first_failure_aborts (failAt 1 (.str "boom")) sampleABC 0 1 _
      failAt_one_first_failure).2.2.2.2.1,
   (printDualReports_first_failure_aborts (failAt 1 (.str "boom")) sampleABC 0 1 _
      failAt_one_first_failure).2.2.2.2.2⟩

/-- C4: in every run the trace of the dispatch capability is
`begin 0, settle 0, begin 1, settle 1, ...` (at most one unsettled `begin` at
the end, every `settle` carrying a settled outcome), call `k + 1` begins only
after the host fulfilled call `k`, call `k` carries the descriptor of
`reports[k]`, every recorded settlement is a settled outcome given by the host
to that very call, and the host ends in the state it reaches after receiving
exactly the recorded calls. -/
theorem printDualReports_strictly_sequential {σ : Type} (env : Env σ)
    (action : Action) (s : σ) :
    sequentialFrom 0 (printDualReports env action s).trace = true ∧
    (∀ (i k : Nat) (d : JSValue),
      (printDualReports env action s).trace[i]? = some (.begin (k + 1) d) →
      ∃ (j : Nat) (v : JSValue),
        j < i ∧
        (printDualReports env action s).trace[j]? = some (.settle k (.fulfilled v)) ∧
        (env.settlements (descriptorsOf action) s)[k]? = some (.fulfilled v)) ∧
    (∀ (k : Nat) (d : JSValue), Event.begin k d ∈ (printDualReports env action s).trace →
      ∃ r, action.params.reports[k]? = some r ∧
        d = reportAction r action.params.active_ids) ∧
    (∀ (k : Nat) (o : Settlement),
      Event.settle k o ∈ (printDualReports env action s).trace →
      o.isSettled = true ∧ (env.settlements (descriptorsOf action) s)[k]? = some o) ∧
    (printDualReports env action s).host
      = env.hostAfter (dispatched (printDualReports env action s).trace) s := by
  rw [printDualReports_host, printDualReports_trace]
  refine ⟨forOf_sequential env action.params.active_ids action.params.reports 0 s,
    ?_, ?_, ?_, forOf_host env action.params.active_ids action.params.reports 0 s⟩
  · intro i k d hi
    obtain ⟨j, v, hj, hjt, hjs⟩ := forOf_settled_before env action.params.active_ids
      action.params.reports 0 s i (k + 1) d hi (Nat.succ_pos k)
    exact ⟨j, v, hj, by simpa using hjt, by simpa using hjs⟩
  · intro k d hk
    obtain ⟨_, r, hr, hd⟩ := forOf_begin_mem env action.params.active_ids
      action.params.reports 0 s k d hk
    exact ⟨r, by simpa using hr, hd⟩
  · intro k o hk
    obtain ⟨_, hs, hr⟩ := forOf_settle_mem env action.params.active_ids
      action.params.reports 0 s k o hk
    exact ⟨hs, by simpa using hr⟩

/-- C4, witness: in the run on `[A, B, C]` the call for B sits at position 2 of
the trace and the fulfilment of the call for A precedes it; with a host that
never settles its first call, the only event is the call for A and the host
has received one call. -/
theorem printDualReports_strictly_sequential_witness :
    ((printDualReports (alwaysOk .null) sampleABC 0).trace[2]?
      = some (.begin 1 (reportAction "B" (.arr [.num 10, .num 20]))) ∧
    ∃ (j : Nat) (v : JSValue), j < 2 ∧
      (printDualReports (alwaysOk .null) sampleABC 0).trace[j]?
        = some (.settle 0 (.fulfilled v)) ∧
      ((alwaysOk .null).settlements (descriptorsOf sampleABC) 0)[0]?
        = some (.fulfilled v)) ∧
    (dispatched (printDualReports neverSettles sampleABC 0).trace
      = [reportAction "A" (.arr [.num 10, .num 20])] ∧
    (printDualReports neverSettles sampleABC 0).host
      = neverSettles.hostAfter
          (dispatched (printDualReports neverSettles sampleABC 0).trace) 0 ∧
    (printDualReports neverSettles sampleABC 0).host = 1) :=
  ⟨⟨rfl, (printDualReports_strictly_sequential (alwaysOk .null) sampleABC 0).2.1 2 0 _ rfl⟩,
   ⟨rfl, (printDualReports_strictly_sequential neverSettles sampleABC 0).2.2.2.2, rfl⟩⟩

/-- C5, counterexample: the descriptor dispatched for report A with
`activeIds = [10, 20]` is not the object with `kind: "report"`. -/
theorem printDualReports_descriptor_is_not_kind_report :
    (dispatched (printDualReports (alwaysOk .null) sampleABC 0).trace)[0]? ≠
      some (.obj [("kind", .str "report"),
                  ("report_name", .str "A"),
                  ("report_type", .str "qweb-pdf"),
                  ("context", .obj [("active_ids", .arr [.num 10, .num 20]),
                                    ("active_model", .str "repair.order")])]) := by
  show some (reportAction "A" (.arr [.num 10, .num 20])) ≠ _
  simp [reportAction]

/-- C5, amended: every descriptor passed to the dispatch capability is, for
some report `r` of `reports`, exactly
`{ type: "ir.actions.report", report_name: r, report_type: "qweb-pdf",
   context: { active_ids: activeIds, active_model: "repair.order" } }`:
four top-level fields and two context fields, no others. -/
theorem printDualReports_descriptor_shape {σ : Type} (env : Env σ)
    (action : Action) (s : σ) (d : JSValue)
    (h : d ∈ dispatched (printDualReports env action s).trace) :
    ∃ r ∈ action.params.reports,
      d = .obj [("type", .str "ir.actions.report"),
                ("report_name", .str r),
                ("report_type", .str "qweb-pdf"),
                ("context", .obj [("active_ids", action.params.active_ids),
                                  ("active_model", .str "repair.order")])] ∧
      d.keys = ["type", "report_name", "report_type", "context"] ∧
      (d.prop "context").map JSValue.keys = some ["active_ids", "active_model"] := by
  obtain ⟨r, hr, hd⟩ := dispatched_mem env action s d h
  subst hd
  exact ⟨r, hr, rfl, rfl, rfl⟩

/-- C5, witness: the descriptor dispatched for B in the run on `[A, B, C]`. -/
theorem printDualReports_descriptor_shape_witness :
    reportAction "B" (.arr [.num 10, .num 20])
      ∈ dispatched (printDualReports (alwaysOk .null) sampleABC 0).trace ∧
    ∃ r ∈ ["A", "B", "C"],
      reportAction "B" (.arr [.num 10, .num 20])
        = .obj [("type", .str "ir.actions.report"),
                ("report_name", .str r),
                ("report_type", .str "qweb-pdf"),
                ("context", .obj [("active_ids", .arr [.num 10, .num 20]),
                                  ("active_model", .str "repair.order")])] ∧
      (reportAction "B" (.arr [.num 10, .num 20])).keys
        = ["type", "report_name", "report_type", "context"] ∧
      ((reportAction "B" (.arr [.num 10, .num 20])).prop "context").map JSValue.keys
        = some ["active_ids", "active_model"] :=
  ⟨List.mem_cons_of_mem _ (List.mem_cons_self _ _),
   printDualReports_descriptor_shape (alwaysOk .null) sampleABC 0 _
     (List.mem_cons_of_mem _ (List.mem_cons_self _ _))⟩

/-- C6: with `reports = []`, whatever `activeIds` and whatever the dispatch
capability (one that always fails included), the capability is never called
and the window-close descriptor is returned. -/
theorem printDualReports_no_reports {σ : Type} (env : Env σ) (activeIds : JSValue) (s : σ) :
    (printDualReports env ⟨⟨[], activeIds⟩⟩ s).trace = [] ∧
    dispatched (printDualReports env ⟨⟨[], activeIds⟩⟩ s).trace = [] ∧
    (printDualReports env ⟨⟨[], activeIds⟩⟩ s).result
      = .fulfilled (.obj [("type", .str "ir.actions.act_window_close")]) ∧
    (printDualReports env ⟨⟨[], activeIds⟩⟩ s).host = s :=
  ⟨rfl, rfl, rfl, rfl⟩

/-- C7, counterexample: the only report is dispatched, its dispatch fails, and
the close descriptor is not returned: the result is the failure. -/
theorem printDualReports_failed_dispatch_returns_no_close :
    (dispatched (printDualReports (alwaysFail (.str "boom")) sampleA 0).trace).map reportName
      = sampleA.params.reports.map some ∧
    (printDualReports (alwaysFail (.str "boom")) sampleA 0).result
      = .rejected (.str "boom") ∧
    (printDualReports (alwaysFail (.str "boom")) sampleA 0).result
      ≠ .fulfilled closeAction := by
  refine ⟨rfl, rfl, ?_⟩
  show Settlement.rejected (.str "boom") ≠ _
  simp

/-- C7, amended: for every `reports` and every behaviour of the dispatch
capability, the close-window descriptor is returned exactly when every
dispatch succeeded. -/
theorem printDualReports_close_iff_all_succeed {σ : Type} (env : Env σ)
    (action : Action) (s : σ) :
    (printDualReports env action s).result = .fulfilled closeAction ↔
      AllDispatchesSucceed env action s := by
  constructor
  · intro hres
    cases habr : (forOf env action.params.active_ids action.params.reports 0 s).abrupt with
    | none =>
      exact forOf_all_fulfilled_of_normal env action.params.active_ids
        action.params.reports 0 s habr
    | some stop =>
      rw [printDualReports_result_of_abrupt env action s stop habr] at hres
      subst hres
      exact absurd habr (forOf_abrupt_not_fulfilled env action.params.active_ids
        action.params.reports 0 s closeAction)
  · intro h
    exact printDualReports_result_of_normal env action s
      (forOf_of_all_fulfilled env action.params.active_ids action.params.reports 0 s h).1

/-- C7, witness: on `[A, B, C]` with a host that always succeeds the close
descriptor is returned. -/
theorem printDualReports_close_iff_all_succeed_witness :
    AllDispatchesSucceed (alwaysOk .null) sampleABC 0 ∧
    (printDualReports (alwaysOk .null) sampleABC 0).result = .fulfilled closeAction :=
  ⟨alwaysOk_succeeds _ _ _,
   (printDualReports_close_iff_all_succeed (alwaysOk .null) sampleABC 0).2
     (alwaysOk_succeeds _ _ _)⟩

/-- C8: no deduplication and no retries.  When every dispatch succeeds, each
identifier `x` is dispatched as many times as it occurs in `reports`.  When the
dispatch of `reports[k]` is the first to fail, each identifier is dispatched as
many times as it occurs in `reports[0..k]` and the rejection is the last event
of the run: the failed report is not dispatched again. -/
theorem printDualReports_no_dedup_no_retry {σ : Type} (env : Env σ)
    (action : Action) (s : σ) :
    (AllDispatchesSucceed env action s →
      ∀ x : String,
        ((dispatched (printDualReports env action s).trace).map reportName).count (some x)
          = action.params.reports.count x) ∧
    ∀ (k : Nat) (e : JSValue), FirstFailureAt env action s k e →
      (∀ x : String,
        ((dispatched (printDualReports env action s).trace).map reportName).count (some x)
          = (action.params.reports.take (k + 1)).count x) ∧
      (printDualReports env action s).trace.getLast? = some (.settle k (.rejected e)) := by
  rw [printDualReports_trace]
  constructor
  · intro h x
    rw [(forOf_of_all_fulfilled env action.params.active_ids action.params.reports 0 s h).2,
      map_reportName_descriptors]
    exact count_some_map _ x
  · intro k e h
    obtain ⟨hk, hlt⟩ := h
    obtain ⟨_, hd, hl⟩ := forOf_of_first_failure env action.params.active_ids e
      action.params.reports k 0 s hk hlt
    refine ⟨?_, by simpa using hl⟩
    intro x
    rw [hd, map_reportName_descriptors]
    exact count_some_map _ x

/-- C8, witness: `reports = [A, A]` gives two dispatches of A; on `[A, B, C]`
with a failure on B, B is dispatched once and the rejection ends the run. -/
theorem printDualReports_no_dedup_no_retry_witness :
    (AllDispatchesSucceed (alwaysOk .null) sampleAA 0 ∧
      ((dispatched (printDualReports (alwaysOk .null) sampleAA 0).trace).map
        reportName).count (some "A") = 2) ∧
    (FirstFailureAt (failAt 1 (.str "boom")) sampleABC 0 1 (.str "boom") ∧
      ((dispatched (printDualReports (failAt 1 (.str "boom")) sampleABC 0).trace).map
        reportName).count (some "B") = 1 ∧
      (printDualReports (failAt 1 (.str "boom")) sampleABC 0).trace.getLast?
        = some (.settle 1 (.rejected (.str "boom")))) :=
  ⟨⟨alwaysOk_succeeds _ _ _,
    (printDualReports_no_dedup_no_retry (alwaysOk .null) sampleAA 0).1
      (alwaysOk_succeeds _ _ _) "A"⟩,
   ⟨failAt_one_first_failure,
    ((printDualReports_no_dedup_no_retry (failAt 1 (.str "boom")) sampleABC 0).2 1 _
      failAt_one_first_failure).1 "B",
    ((printDualReports_no_dedup_no_retry (failAt 1 (.str "boom")) sampleABC 0).2 1 _
      failAt_one_first_failure).2⟩⟩

/-- C9: no validation of `activeIds`.  With non-empty `reports` and
`activeIds = []` the first report is dispatched whatever the host does, every
dispatch carries `context.active_ids = []` unchanged, and every recorded
dispatch is a real call of the host (the host ends in the state it reaches
after receiving exactly the dispatched descriptors).  When the dispatches
succeed the host receives one call per report, in order, and the window-close
descriptor is returned; the window-close descriptor is returned only then.  A
rejected result is always the rejection the host gave to one of the dispatches,
never a rejection by the handler itself, and when the host rejects a dispatch
first, that rejection is the result. -/
theorem printDualReports_empty_active_ids {σ : Type} (env : Env σ)
    (reports : List String) (s : σ) (hne : reports ≠ []) :
    (∃ r rest, reports = r :: rest ∧
      (printDualReports env ⟨⟨reports, .arr []⟩⟩ s).trace.head?
        = some (.begin 0 (reportAction r (.arr [])))) ∧
    (∀ d ∈ dispatched (printDualReports env ⟨⟨reports, .arr []⟩⟩ s).trace,
      contextActiveIds d = some (.arr [])) ∧
    (AllDispatchesSucceed env ⟨⟨reports, .arr []⟩⟩ s →
      (dispatched (printDualReports env ⟨⟨reports, .arr []⟩⟩ s).trace).length
        = reports.length ∧
      (printDualReports env ⟨⟨reports, .arr []⟩⟩ s).result = .fulfilled closeAction) ∧
    (∀ e, (printDualReports env ⟨⟨reports, .arr []⟩⟩ s).result = .rejected e →
      ∃ k, Event.settle k (.rejected e)
          ∈ (printDualReports env ⟨⟨reports, .arr []⟩⟩ s).trace ∧
        (env.settlements (descriptorsOf ⟨⟨reports, .arr []⟩⟩) s)[k]? = some (.rejected e)) ∧
    (printDualReports env ⟨⟨reports, .arr []⟩⟩ s).host
      = env.hostAfter (dispatched (printDualReports env ⟨⟨reports, .arr []⟩⟩ s).trace) s ∧
    (AllDispatchesSucceed env ⟨⟨reports, .arr []⟩⟩ s →
      dispatched (printDualReports env ⟨⟨reports, .arr []⟩⟩ s).trace
        = reports.map (fun r => reportAction r (.arr [])) ∧
      (printDualReports env ⟨⟨reports, .arr []⟩⟩ s).host
        = env.hostAfter (reports.map (fun r => reportAction r (.arr []))) s) ∧
    ((printDualReports env ⟨⟨reports, .arr []⟩⟩ s).result = .fulfilled closeAction →
      AllDispatchesSucceed env ⟨⟨reports, .arr []⟩⟩ s) ∧
    ∀ (k : Nat) (e : JSValue), FirstFailureAt env ⟨⟨reports, .arr []⟩⟩ s k e →
      (printDualReports env ⟨⟨reports, .arr []⟩⟩ s).result = .rejected e := by
  refine ⟨?_, ?_, ?_, ?_, ?_, ?_, ?_, ?_⟩
  · cases reports with
    | nil => exact absurd rfl hne
    | cons r rest =>
      refine ⟨r, rest, rfl, ?_⟩
      rw [printDualReports_trace]
      exact forOf_head env _ r rest 0 s
  · intro d hd
    obtain ⟨r, _, hrd⟩ := dispatched_mem env _ s d hd
    subst hrd
    rfl
  · intro h
    refine ⟨?_, printDualReports_result_of_normal env ⟨⟨reports, .arr []⟩⟩ s
      (forOf_of_all_fulfilled env _ _ 0 s h).1⟩
    rw [printDualReports_trace, (forOf_of_all_fulfilled env _ _ 0 s h).2]
    simp
  · intro e he
    rw [printDualReports_trace]
    cases habr : (forOf env (.arr []) reports 0 s).abrupt with
    | none =>
      rw [printDualReports_result_of_normal env ⟨⟨reports, .arr []⟩⟩ s habr] at he
      simp at he
    | some stop =>
      rw [printDualReports_result_of_abrupt env ⟨⟨reports, .arr []⟩⟩ s stop habr] at he
      subst he
      obtain ⟨k, hk⟩ := forOf_rejected_mem env _ e reports 0 s habr
      exact ⟨k, hk, by simpa using (forOf_settle_mem env _ reports 0 s k _ hk).2.2⟩
  · rw [printDualReports_host, printDualReports_trace]
    exact forOf_host env _ reports 0 s
  · intro h
    have hd := (forOf_of_all_fulfilled env (.arr []) reports 0 s h).2
    have hh := forOf_host env (.arr []) reports 0 s
    rw [hd] at hh
    rw [printDualReports_host, printDualReports_trace]
    exact ⟨hd, hh⟩
  · intro hres
    cases habr : (forOf env (.arr []) reports 0 s).abrupt with
    | none => exact forOf_all_fulfilled_of_normal env (.arr []) reports 0 s habr
    | some stop =>
      rw [printDualReports_result_of_abrupt env ⟨⟨reports, .arr []⟩⟩ s stop habr] at hres
      subst hres
      exact absurd habr (forOf_abrupt_not_fulfilled env (.arr []) reports 0 s closeAction)
  · intro k e hf
    exact printDualReports_result_of_abrupt env ⟨⟨reports, .arr []⟩⟩ s _
      (forOf_of_first_failure env (.arr []) e reports k 0 s hf.1 hf.2).1

/-- C9, witness: reports `[A, B]` with `activeIds = []` are both dispatched,
each with `active_ids = []`, the counting host has received two calls and the
window-close descriptor is returned; with a host that rejects every call, the
rejected result is the rejection the host gave to the first dispatch. -/
theorem printDualReports_empty_active_ids_witness :
    (["A", "B"] : List String) ≠ [] ∧
    AllDispatchesSucceed (alwaysOk .null) sampleNoIds 0 ∧
    (∀ d ∈ dispatched (printDualReports (alwaysOk .null) sampleNoIds 0).trace,
      contextActiveIds d = some (.arr [])) ∧
    (dispatched (printDualReports (alwaysOk .null) sampleNoIds 0).trace).length = 2 ∧
    (printDualReports (alwaysOk .null) sampleNoIds 0).result = .fulfilled closeAction ∧
    (printDualReports (alwaysOk .null) sampleNoIds 0).host = 2 ∧
    ((printDualReports (alwaysFail (.str "boom")) sampleNoIds 0).result
        = .rejected (.str "boom") ∧
      ∃ k, Event.settle k (.rejected (.str "boom"))
          ∈ (printDualReports (alwaysFail (.str "boom")) sampleNoIds 0).trace ∧
        ((alwaysFail (.str "boom")).settlements (descriptorsOf sampleNoIds) 0)[k]?
          = some (.rejected (.str "boom"))) :=
  ⟨by decide, alwaysOk_succeeds _ _ _,
   (printDualReports_empty_active_ids (alwaysOk .null) ["A", "B"] 0 (by decide)).2.1,
   ((printDualReports_empty_active_ids (alwaysOk .null) ["A", "B"] 0 (by decide)).2.2.1
      (alwaysOk_succeeds _ sampleNoIds _)).1,
   ((printDualReports_empty_active_ids (alwaysOk .null) ["A", "B"] 0 (by decide)).2.2.1
      (alwaysOk_succeeds _ sampleNoIds _)).2,
   ((printDualReports_empty_active_ids (alwaysOk .null) ["A", "B"] 0
      (by decide)).2.2.2.2.2.1 (alwaysOk_succeeds _ sampleNoIds _)).2,
   ⟨rfl, (printDualReports_empty_active_ids (alwaysFail (.str "boom")) ["A", "B"] 0
      (by decide)).2.2.2.1 _ rfl⟩⟩

/-- C10: the values that successful dispatches resolve to are ignored: two
dispatch capabilities that both succeed on every call lead to the same
sequence of descriptors and the same returned value. -/
theorem printDualReports_ignores_resolved_values {σ τ : Type} (env1 : Env σ) (env2 : Env τ)
    (action : Action) (s1 : σ) (s2 : τ)
    (h1 : AllDispatchesSucceed env1 action s1) (h2 : AllDispatchesSucceed env2 action s2) :
    dispatched (printDualReports env1 action s1).trace
      = dispatched (printDualReports env2 action s2).trace ∧
    (printDualReports env1 action s1).result = (printDualReports env2 action s2).result := by
  obtain ⟨ha1, hd1⟩ := forOf_of_all_fulfilled env1 action.params.active_ids
    action.params.reports 0 s1 h1
  obtain ⟨ha2, hd2⟩ := forOf_of_all_fulfilled env2 action.params.active_ids
    action.params.reports 0 s2 h2
  refine ⟨?_, ?_⟩
  · rw [printDualReports_trace, printDualReports_trace, hd1, hd2]
  · rw [printDualReports_result_of_normal env1 action s1 ha1,
      printDualReports_result_of_normal env2 action s2 ha2]

/-- C10, witness: a host resolving every dispatch to `"done"` and one resolving
every dispatch to `1` lead to the same descriptors and the same result. -/
theorem printDualReports_ignores_resolved_values_witness :
    AllDispatchesSucceed (alwaysOk (.str "done")) sampleABC 0 ∧
    AllDispatchesSucceed (alwaysOk (.num 1)) sampleABC 5 ∧
    dispatched (printDualReports (alwaysOk (.str "done")) sampleABC 0).trace
      = dispatched (printDualReports (alwaysOk (.num 1)) sampleABC 5).trace ∧
    (printDualReports (alwaysOk (.str "done")) sampleABC 0).result
      = (printDualReports (alwaysOk (.num 1)) sampleABC 5).result :=
  ⟨alwaysOk_succeeds _ _ _, alwaysOk_succeeds _ _ _,
   printDualReports_ignores_resolved_values (alwaysOk (.str "done")) (alwaysOk (.num 1))
     sampleABC 0 5 (alwaysOk_succeeds _ _ _) (alwaysOk_succeeds _ _ _)⟩

end RepairPrint
